import Mathlib

/-
Shallow embedding of the Standard MIDI File (SMF) decoder found in
src/midi/formats.rs of the sample_synth repository.

The byte stream is modelled as a `List Nat`; every byte that enters the
model is masked with `% 256`, exactly where the source materialises a `u8`.
A reader is a function `List Nat → PResult α`:
  * `ok v s1`   : the Rust function returned `Ok(v)` leaving stream `s1`;
  * `err e s1`  : the Rust function returned `Err(e)` with stream `s1`
                  holding the bytes not yet consumed at that point;
  * `panic`     : the Rust code panicked (out-of-bounds index of the
                  `fill_buf` slice, `unreachable!()`, or division by zero).
In this pure model the only I/O failure that can occur is an unexpected end
of input, so the source's `ParseError::IOError(UnexpectedEof)` is the single
constructor `IOError`, and `ParseError::is_eof` is true exactly on it.
Unbounded `loop`s of the source are modelled with a fuel argument that is
instantiated with `stream length + 1`; since every loop iteration of the
source consumes at least one byte, that fuel is never exhausted on the
executions the theorems below talk about.
-/

namespace SampleSynth

inductive ParseError where
  | IOError : ParseError
  | UnexpectedTag : List Nat → ParseError
  | UnexpectedFormat : Nat → ParseError
  | NotCommand : Nat → ParseError
  | NotData : Nat → ParseError
  | NotSupportedSystemMessage : Nat → ParseError
deriving DecidableEq

def ParseError.is_eof : ParseError → Bool
  | .IOError => true
  | _ => false

inductive PResult (α : Type) where
  | ok : α → List Nat → PResult α
  | err : ParseError → List Nat → PResult α
  | panic : PResult α
deriving DecidableEq

def PResult.bind {α β : Type} : PResult α → (α → List Nat → PResult β) → PResult β
  | .ok a s, f => f a s
  | .err e s, _ => .err e s
  | .panic, _ => .panic

def readU8 : List Nat → PResult Nat
  | [] => .err .IOError []
  | b :: s => .ok (b % 256) s

def readU16 (s : List Nat) : PResult Nat :=
  (readU8 s).bind fun b1 s => (readU8 s).bind fun b0 s => .ok (b1 * 256 + b0) s

def readU32 (s : List Nat) : PResult Nat :=
  (readU8 s).bind fun b3 s => (readU8 s).bind fun b2 s =>
  (readU8 s).bind fun b1 s => (readU8 s).bind fun b0 s =>
  .ok (((b3 * 256 + b2) * 256 + b1) * 256 + b0) s

def readI16 (s : List Nat) : PResult Int :=
  (readU16 s).bind fun n s =>
    .ok (if n < 32768 then (n : Int) else (n : Int) - 65536) s

inductive Tag where
  | Header : Tag
  | Track : Tag
deriving DecidableEq

def Tag.read (s : List Nat) : PResult Tag :=
  (readU8 s).bind fun t0 s => (readU8 s).bind fun t1 s =>
  (readU8 s).bind fun t2 s => (readU8 s).bind fun t3 s =>
    if t0 = 77 ∧ t1 = 84 ∧ t2 = 104 ∧ t3 = 100 then .ok .Header s
    else if t0 = 77 ∧ t1 = 84 ∧ t2 = 114 ∧ t3 = 107 then .ok .Track s
    else .err (.UnexpectedTag [t0, t1, t2, t3]) s

structure U28 where
  val : Nat
deriving DecidableEq

def U28.readAux : Nat → Nat → List Nat → PResult Nat
  | 0, inner, s => .ok inner s
  | n + 1, inner, s =>
    (readU8 s).bind fun b s =>
      if 128 ≤ b then U28.readAux n (inner * 128 + b % 128) s
      else .ok (inner * 128 + b) s

def U28.read (s : List Nat) : PResult U28 :=
  (U28.readAux 4 0 s).bind fun v s => .ok ⟨v⟩ s

structure Slice where
  data : List Nat
deriving DecidableEq

def readBytes : Nat → List Nat → PResult (List Nat)
  | 0, s => .ok [] s
  | n + 1, s =>
    (readU8 s).bind fun b s =>
    (readBytes n s).bind fun bs s => .ok (b :: bs) s

def Slice.read (s : List Nat) : PResult Slice :=
  (U28.read s).bind fun len s =>
  (readBytes len.val s).bind fun bs s => .ok ⟨bs⟩ s

def hexify (b : Nat) : Nat :=
  if b ≤ 9 then 48 + b else 97 + b - 10

def escapeByte (c : Nat) : List Nat :=
  if c = 9 then [92, 116]
  else if c = 13 then [92, 114]
  else if c = 10 then [92, 110]
  else if c = 92 then [92, 92]
  else if c = 39 then [92, 39]
  else if c = 34 then [92, 34]
  else if 32 ≤ c ∧ c ≤ 126 then [c]
  else [92, 120, hexify (c / 16), hexify (c % 16)]

def Slice.to_ascii (sl : Slice) : List Nat :=
  (sl.data.map escapeByte).flatten

def Slice.to_u32 (sl : Slice) : Nat :=
  (sl.data.take 4).foldl (fun num n => num * 256 + n) 0

inductive MetaMessage where
  | SequenceNumber : Slice → MetaMessage
  | Text : List Nat → MetaMessage
  | Copyright : List Nat → MetaMessage
  | TrackName : List Nat → MetaMessage
  | InstrumentName : List Nat → MetaMessage
  | Lyric : List Nat → MetaMessage
  | Marker : List Nat → MetaMessage
  | CuePoint : List Nat → MetaMessage
  | ChannelPrefix : Slice → MetaMessage
  | EndOfTrack : Slice → MetaMessage
  | Tempo : Nat → MetaMessage
  | SmpteOffset : Slice → MetaMessage
  | TimeSignature : Slice → MetaMessage
  | KeySignature : Slice → MetaMessage
  | SequencerSpecific : Slice → MetaMessage
  | Unknown : Slice → MetaMessage
deriving DecidableEq

def MetaMessage.ofType (t : Nat) (sl : Slice) : MetaMessage :=
  if t = 0 then .SequenceNumber sl
  else if t = 1 then .Text sl.to_ascii
  else if t = 2 then .Copyright sl.to_ascii
  else if t = 3 then .TrackName sl.to_ascii
  else if t = 4 then .InstrumentName sl.to_ascii
  else if t = 5 then .Lyric sl.to_ascii
  else if t = 6 then .Marker sl.to_ascii
  else if t = 7 then .CuePoint sl.to_ascii
  else if t = 32 then .ChannelPrefix sl
  else if t = 47 then .EndOfTrack sl
  else if t = 81 then .Tempo sl.to_u32
  else if t = 84 then .SmpteOffset sl
  else if t = 88 then .TimeSignature sl
  else if t = 89 then .KeySignature sl
  else if t = 127 then .SequencerSpecific sl
  else .Unknown sl

def MetaMessage.read (s : List Nat) : PResult MetaMessage :=
  (readU8 s).bind fun t s =>
  (Slice.read s).bind fun sl s => .ok (MetaMessage.ofType t sl) s

structure U7 where
  val : Nat
deriving DecidableEq

def U7.read (s : List Nat) : PResult U7 :=
  (readU8 s).bind fun b s =>
    if 128 ≤ b then .err (.NotData b) s else .ok ⟨b⟩ s

structure U14 where
  val : Nat
deriving DecidableEq

def U14.read (s : List Nat) : PResult U14 :=
  (readU8 s).bind fun high s =>
  (readU8 s).bind fun low s =>
    .ok ⟨(low % 128) * 128 + high % 128⟩ s

inductive MidiMessage where
  | NoteOff : U7 → U7 → MidiMessage
  | NoteOn : U7 → U7 → MidiMessage
  | Aftertouch : U7 → U7 → MidiMessage
  | ControlChange : U7 → U7 → MidiMessage
  | PatchChange : U7 → MidiMessage
  | ChannelPressure : U7 → MidiMessage
  | PitchBend : U14 → MidiMessage
deriving DecidableEq

def MidiMessage.classNibble : MidiMessage → Nat
  | .NoteOff _ _ => 8
  | .NoteOn _ _ => 9
  | .Aftertouch _ _ => 10
  | .ControlChange _ _ => 11
  | .PatchChange _ => 12
  | .ChannelPressure _ => 13
  | .PitchBend _ => 14

def readMidiMessage (command : Nat) (s : List Nat) : PResult MidiMessage :=
  if command = 8 then
    (U7.read s).bind fun key s => (U7.read s).bind fun vel s => .ok (.NoteOff key vel) s
  else if command = 9 then
    (U7.read s).bind fun key s => (U7.read s).bind fun vel s => .ok (.NoteOn key vel) s
  else if command = 10 then
    (U7.read s).bind fun key s => (U7.read s).bind fun vel s => .ok (.Aftertouch key vel) s
  else if command = 11 then
    (U7.read s).bind fun c s => (U7.read s).bind fun v s => .ok (.ControlChange c v) s
  else if command = 12 then
    (U7.read s).bind fun p s => .ok (.PatchChange p) s
  else if command = 13 then
    (U7.read s).bind fun v s => .ok (.ChannelPressure v) s
  else if command = 14 then
    (U14.read s).bind fun v s => .ok (.PitchBend v) s
  else .panic

inductive Event where
  | Meta : MetaMessage → Event
  | Midi : Nat → MidiMessage → Event
  | Sysex : Slice → Event
deriving DecidableEq

def Event.is_end : Event → Bool
  | .Meta (.EndOfTrack _) => true
  | _ => false

def readEventBody (status : Nat) (s : List Nat) : PResult Event :=
  let high := status / 16
  let low := status % 16
  if 8 ≤ high ∧ high < 15 then
    (readMidiMessage high s).bind fun m s => .ok (.Midi low m) s
  else if high = 15 then
    if low = 0 ∨ low = 7 then
      (Slice.read s).bind fun sl s => .ok (.Sysex sl) s
    else if low = 15 then
      (MetaMessage.read s).bind fun m s => .ok (.Meta m) s
    else .err (.NotSupportedSystemMessage status) s
  else .panic

structure TrackEvent where
  delta : U28
  event : Event
deriving DecidableEq

structure TrackChunk where
  tag : Tag
  track_len : Nat
  events : List TrackEvent
deriving DecidableEq

def TrackChunk.readEventAfterDelta (previousStatus : Nat) (delta : U28) : List Nat → PResult (TrackEvent × Nat)
  | [] => .panic
  | b :: rest =>
    if b % 256 < 128 then
      if previousStatus < 128 then .err (.NotCommand (b % 256)) (b :: rest)
      else
        (readEventBody previousStatus (b :: rest)).bind fun ev s1 =>
          .ok (⟨delta, ev⟩, previousStatus) s1
    else
      (readEventBody (b % 256) rest).bind fun ev s1 =>
        .ok (⟨delta, ev⟩, b % 256) s1

def TrackChunk.readEvent (previousStatus : Nat) (s : List Nat) : PResult (TrackEvent × Nat) :=
  (U28.read s).bind fun delta s => TrackChunk.readEventAfterDelta previousStatus delta s

def TrackChunk.readEvents (fuel previousStatus : Nat) (s : List Nat) : PResult (List TrackEvent) :=
  match fuel with
  | 0 => .panic
  | fuel + 1 =>
    match TrackChunk.readEvent previousStatus s with
    | .panic => .panic
    | .err e s1 => .err e s1
    | .ok (te, st) s1 =>
      if te.event.is_end then .ok [te] s1
      else
        (TrackChunk.readEvents fuel st s1).bind fun tes s2 => .ok (te :: tes) s2

def TrackChunk.read (s : List Nat) : PResult TrackChunk :=
  (Tag.read s).bind fun tag s =>
  (readU32 s).bind fun len s =>
  (TrackChunk.readEvents (s.length + 1) 0 s).bind fun tes s => .ok ⟨tag, len, tes⟩ s

inductive Format where
  | SingleTrack : Format
  | MultipleTrack : Format
  | MultipleSong : Format
deriving DecidableEq

def Format.read (s : List Nat) : PResult Format :=
  (readU16 s).bind fun f s =>
    if f = 0 then .ok .SingleTrack s
    else if f = 1 then .ok .MultipleTrack s
    else if f = 2 then .ok .MultipleSong s
    else .err (.UnexpectedFormat f) s

structure HeaderChunk where
  tag : Tag
  header_len : Nat
  format : Format
  track_num : Nat
  division : Int
deriving DecidableEq

def HeaderChunk.read (s : List Nat) : PResult HeaderChunk :=
  (Tag.read s).bind fun tag s =>
  (readU32 s).bind fun hl s =>
  (Format.read s).bind fun fmt s =>
  (readU16 s).bind fun tn s =>
  (readI16 s).bind fun dv s => .ok ⟨tag, hl, fmt, tn, dv⟩ s

structure Smf where
  header : HeaderChunk
  tracks : List TrackChunk
deriving DecidableEq

def Smf.readTracks (fuel : Nat) (s : List Nat) : PResult (List TrackChunk) :=
  match fuel with
  | 0 => .panic
  | fuel + 1 =>
    match TrackChunk.read s with
    | .ok t s1 => (Smf.readTracks fuel s1).bind fun ts s2 => .ok (t :: ts) s2
    | .err e s1 => if e.is_eof then .ok [] s1 else .err e s1
    | .panic => .panic

def Smf.read (s : List Nat) : PResult Smf :=
  (HeaderChunk.read s).bind fun h s =>
  (Smf.readTracks (s.length + 1) s).bind fun ts s => .ok ⟨h, ts⟩ s

/-- Modelled from the source's `Smf::timebase`.  The result is `none` exactly
when the Rust code would panic with a division by zero (`1_000_000 / (fps * tpf)`
with `fps * tpf = 0`); otherwise it is `some` of the value the source returns.
The i16 arithmetic shift `division >> 8` is floor division by 256 and the
masks `& 0x007F` / `& 0x00FF` are Euclidean remainders by 128 / 256. -/
def Smf.timebase (smf : Smf) : Option Nat :=
  let division := smf.header.division
  if 0 < division then some (500000 / division.toNat)
  else
    let fps := ((Int.fdiv division 256) % 128).toNat
    let tpf := (division % 256).toNat
    if fps * tpf = 0 then none else some (1000000 / (fps * tpf))

/-- Modelled from the spec: the repository contains no VLQ encoder (encoding is
an explicit non-goal), so this follows the spec's description of the encoding:
7-bit groups in big-endian group order, continuation bit set on every byte
except the last. -/
def vlqEncode (v : Nat) : List Nat :=
  if v < 128 then [v]
  else if v < 16384 then [128 + v / 128, v % 128]
  else if v < 2097152 then [128 + v / 16384, 128 + v / 128 % 128, v % 128]
  else [128 + v / 2097152, 128 + v / 16384 % 128, 128 + v / 128 % 128, v % 128]

/-- Extension property of a reader: appending extra bytes to the input of a
successful parse does not change the result, the extra bytes are appended to
the leftover.  This is how the decode of one chunk embedded in a longer
stream is related to the decode of the chunk's own bytes. -/
def Ext {α : Type} (p : List Nat → PResult α) : Prop :=
  ∀ s t v s1, p s = .ok v s1 → p (s ++ t) = .ok v (s1 ++ t)

theorem ext_pure {α : Type} (v : α) : Ext fun s => .ok v s := by
  intro s t w s1 h
  injection h with h1 h2
  subst h1; subst h2; rfl

theorem ext_err {α : Type} (e : ParseError) : Ext fun s => (.err e s : PResult α) := by
  intro s t w s1 h
  exact absurd h (by simp)

theorem ext_panic {α : Type} : Ext fun _ : List Nat => (.panic : PResult α) := by
  intro s t w s1 h
  exact absurd h (by simp)

theorem ext_bind {α β : Type} {p : List Nat → PResult α} {f : α → List Nat → PResult β}
    (hp : Ext p) (hf : ∀ v, Ext (f v)) : Ext fun s => (p s).bind f := by
  intro s t v s1 h
  simp only at h ⊢
  cases hps : p s with
  | ok a s2 =>
      rw [hp s t a s2 hps]
      rw [hps] at h
      exact hf a s2 t v s1 h
  | err e s2 => rw [hps] at h; exact absurd h (by simp [PResult.bind])
  | panic => rw [hps] at h; exact absurd h (by simp [PResult.bind])

theorem ext_ite {α : Type} (c : Prop) [Decidable c] {p q : List Nat → PResult α}
    (hp : Ext p) (hq : Ext q) : Ext fun s => if c then p s else q s := by
  intro s t v s1 h
  simp only at h ⊢
  by_cases hc : c
  · rw [if_pos hc] at h ⊢; exact hp s t v s1 h
  · rw [if_neg hc] at h ⊢; exact hq s t v s1 h

theorem readU8_ext : Ext readU8 := by
  intro s t v s1 h
  cases s with
  | nil => exact absurd h (by simp [readU8])
  | cons b r =>
      simp only [readU8] at h
      injection h with h1 h2
      subst h1; subst h2; rfl

theorem readU16_ext : Ext readU16 :=
  ext_bind readU8_ext fun b1 => ext_bind readU8_ext fun b0 => ext_pure (b1 * 256 + b0)

theorem readU32_ext : Ext readU32 :=
  ext_bind readU8_ext fun b3 => ext_bind readU8_ext fun b2 =>
  ext_bind readU8_ext fun b1 => ext_bind readU8_ext fun b0 =>
  ext_pure (((b3 * 256 + b2) * 256 + b1) * 256 + b0)

theorem readI16_ext : Ext readI16 :=
  ext_bind readU16_ext fun n => ext_pure _

theorem Tag_read_ext : Ext Tag.read :=
  ext_bind readU8_ext fun t0 => ext_bind readU8_ext fun t1 =>
  ext_bind readU8_ext fun t2 => ext_bind readU8_ext fun t3 =>
  ext_ite _ (ext_pure _) (ext_ite _ (ext_pure _) (ext_err _))

theorem U28.readAux_ext : ∀ n inner : Nat, Ext (U28.readAux n inner) := by
  intro n
  induction n with
  | zero => intro inner; exact ext_pure inner
  | succ n ih =>
      intro inner
      exact ext_bind readU8_ext fun b => ext_ite _ (ih _) (ext_pure _)

theorem U28_read_ext : Ext U28.read :=
  ext_bind (U28.readAux_ext 4 0) fun v => ext_pure _

theorem readBytes_ext : ∀ n : Nat, Ext (readBytes n) := by
  intro n
  induction n with
  | zero => intro s t v s1 h; injection h with h1 h2; subst h1; subst h2; rfl
  | succ n ih =>
      exact ext_bind readU8_ext fun b => ext_bind ih fun bs => ext_pure _

theorem Slice_read_ext : Ext Slice.read :=
  ext_bind U28_read_ext fun len => ext_bind (readBytes_ext len.val) fun bs => ext_pure _

theorem MetaMessage_read_ext : Ext MetaMessage.read :=
  ext_bind readU8_ext fun t => ext_bind Slice_read_ext fun sl => ext_pure _

theorem U7_read_ext : Ext U7.read :=
  ext_bind readU8_ext fun b => ext_ite _ (ext_err _) (ext_pure _)

theorem U14_read_ext : Ext U14.read :=
  ext_bind readU8_ext fun high => ext_bind readU8_ext fun low => ext_pure _

theorem readMidiMessage_ext (c : Nat) : Ext (readMidiMessage c) :=
  ext_ite _ (ext_bind U7_read_ext fun key => ext_bind U7_read_ext fun vel => ext_pure _) <|
  ext_ite _ (ext_bind U7_read_ext fun key => ext_bind U7_read_ext fun vel => ext_pure _) <|
  ext_ite _ (ext_bind U7_read_ext fun key => ext_bind U7_read_ext fun vel => ext_pure _) <|
  ext_ite _ (ext_bind U7_read_ext fun c => ext_bind U7_read_ext fun v => ext_pure _) <|
  ext_ite _ (ext_bind U7_read_ext fun p => ext_pure _) <|
  ext_ite _ (ext_bind U7_read_ext fun v => ext_pure _) <|
  ext_ite _ (ext_bind U14_read_ext fun v => ext_pure _) ext_panic

theorem readEventBody_ext (status : Nat) : Ext (readEventBody status) :=
  ext_ite _ (ext_bind (readMidiMessage_ext _) fun m => ext_pure _) <|
  ext_ite _
    (ext_ite _ (ext_bind Slice_read_ext fun sl => ext_pure _) <|
     ext_ite _ (ext_bind MetaMessage_read_ext fun m => ext_pure _) (ext_err _))
    ext_panic

theorem TrackChunk.readEventAfterDelta_ext (p : Nat) (delta : U28) :
    Ext (TrackChunk.readEventAfterDelta p delta) := by
  intro s t v s1 h
  cases s with
  | nil => exact absurd h (by simp [TrackChunk.readEventAfterDelta])
  | cons b rest =>
      rw [List.cons_append]
      rw [TrackChunk.readEventAfterDelta] at h ⊢
      by_cases hb : b % 256 < 128
      · rw [if_pos hb] at h ⊢
        by_cases hp : p < 128
        · rw [if_pos hp] at h; exact absurd h (by simp)
        · rw [if_neg hp] at h ⊢
          exact ext_bind (readEventBody_ext p) (fun ev => ext_pure _) (b :: rest) t v s1 h
      · rw [if_neg hb] at h ⊢
        exact ext_bind (readEventBody_ext (b % 256)) (fun ev => ext_pure _) rest t v s1 h

theorem TrackChunk.readEvent_ext (p : Nat) : Ext (TrackChunk.readEvent p) :=
  ext_bind U28_read_ext fun delta => TrackChunk.readEventAfterDelta_ext p delta

theorem U28.readAux_cont (n inner b : Nat) (s : List Nat) (hb : 128 ≤ b % 256) :
    U28.readAux (n + 1) inner (b :: s) = U28.readAux n (inner * 128 + b % 256 % 128) s := by
  simp [U28.readAux, readU8, PResult.bind, hb]

theorem U28.readAux_stop (n inner b : Nat) (s : List Nat) (hb : b % 256 < 128) :
    U28.readAux (n + 1) inner (b :: s) = .ok (inner * 128 + b % 256) s := by
  simp [U28.readAux, readU8, PResult.bind]
  omega

theorem U28.readAux_length :
    ∀ (n inner : Nat) (s : List Nat) (v : Nat) (s1 : List Nat),
      U28.readAux n inner s = .ok v s1 → s.length ≤ s1.length + n := by
  intro n
  induction n with
  | zero =>
      intro inner s v s1 h
      injection h with h1 h2
      subst h2; omega
  | succ n ih =>
      intro inner s v s1 h
      cases s with
      | nil => exact absurd h (by simp [U28.readAux, readU8, PResult.bind])
      | cons b r =>
          by_cases hb : 128 ≤ b % 256
          · rw [U28.readAux_cont n inner b r hb] at h
            have := ih _ _ _ _ h
            simp only [List.length_cons]
            omega
          · rw [U28.readAux_stop n inner b r (by omega)] at h
            injection h with h1 h2
            subst h2
            simp only [List.length_cons]
            omega

theorem TrackChunk.readEvents_ext_mono :
    ∀ (f : Nat) (f' p : Nat) (s t : List Nat) (v : List TrackEvent) (s1 : List Nat),
      TrackChunk.readEvents f p s = .ok v s1 → f ≤ f' →
      TrackChunk.readEvents f' p (s ++ t) = .ok v (s1 ++ t) := by
  intro f
  induction f with
  | zero =>
      intro f' p s t v s1 h _
      exact absurd h (by simp [TrackChunk.readEvents])
  | succ f ih =>
      intro f' p s t v s1 h hle
      obtain ⟨f', rfl⟩ : ∃ g, f' = g + 1 := ⟨f' - 1, by omega⟩
      rw [TrackChunk.readEvents] at h ⊢
      cases hre : TrackChunk.readEvent p s with
      | panic => rw [hre] at h; exact absurd h (by simp)
      | err e s2 => rw [hre] at h; exact absurd h (by simp)
      | ok tst s2 =>
          obtain ⟨te, st⟩ := tst
          rw [hre] at h
          rw [TrackChunk.readEvent_ext p s t (te, st) s2 hre]
          simp only at h ⊢
          by_cases hend : te.event.is_end = true
          · rw [if_pos hend] at h ⊢
            injection h with h1 h2
            subst h1; subst h2; rfl
          · rw [if_neg hend] at h ⊢
            cases hrec : TrackChunk.readEvents f st s2 with
            | panic => rw [hrec] at h; exact absurd h (by simp [PResult.bind])
            | err e s3 => rw [hrec] at h; exact absurd h (by simp [PResult.bind])
            | ok tes s3 =>
                rw [hrec] at h
                rw [ih f' st s2 t tes s3 hrec (by omega)]
                simp only [PResult.bind] at h ⊢
                injection h with h1 h2
                subst h1; subst h2; rfl

theorem TrackChunk.readEvents_last :
    ∀ (f p : Nat) (s : List Nat) (tes : List TrackEvent) (s1 : List Nat),
      TrackChunk.readEvents f p s = .ok tes s1 →
      ∃ te, tes.getLast? = some te ∧ te.event.is_end = true := by
  intro f
  induction f with
  | zero =>
      intro p s tes s1 h
      exact absurd h (by simp [TrackChunk.readEvents])
  | succ f ih =>
      intro p s tes s1 h
      rw [TrackChunk.readEvents] at h
      cases hre : TrackChunk.readEvent p s with
      | panic => rw [hre] at h; exact absurd h (by simp)
      | err e s2 => rw [hre] at h; exact absurd h (by simp)
      | ok tst s2 =>
          obtain ⟨te, st⟩ := tst
          rw [hre] at h
          simp only at h
          by_cases hend : te.event.is_end = true
          · rw [if_pos hend] at h
            injection h with h1 h2
            subst h1
            exact ⟨te, by simp, hend⟩
          · rw [if_neg hend] at h
            cases hrec : TrackChunk.readEvents f st s2 with
            | panic => rw [hrec] at h; exact absurd h (by simp [PResult.bind])
            | err e s3 => rw [hrec] at h; exact absurd h (by simp [PResult.bind])
            | ok tes' s3 =>
                rw [hrec] at h
                simp only [PResult.bind] at h
                injection h with h1 h2
                subst h1
                obtain ⟨tl, hl, he⟩ := ih st s2 tes' s3 hrec
                refine ⟨tl, ?_, he⟩
                cases tes' with
                | nil => simp at hl
                | cons a as => rw [List.getLast?_cons_cons]; exact hl

theorem TrackChunk_read_ext : Ext TrackChunk.read := by
  intro s t v s1 h
  unfold TrackChunk.read at h ⊢
  cases htag : Tag.read s with
  | err e s2 => rw [htag] at h; exact absurd h (by simp [PResult.bind])
  | panic => rw [htag] at h; exact absurd h (by simp [PResult.bind])
  | ok tag s2 =>
      rw [htag] at h
      rw [Tag_read_ext s t tag s2 htag]
      simp only [PResult.bind] at h ⊢
      cases hlen : readU32 s2 with
      | err e s3 => rw [hlen] at h; exact absurd h (by simp [PResult.bind])
      | panic => rw [hlen] at h; exact absurd h (by simp [PResult.bind])
      | ok len s3 =>
          rw [hlen] at h
          rw [readU32_ext s2 t len s3 hlen]
          simp only [PResult.bind] at h ⊢
          cases hev : TrackChunk.readEvents (s3.length + 1) 0 s3 with
          | err e s4 => rw [hev] at h; exact absurd h (by simp [PResult.bind])
          | panic => rw [hev] at h; exact absurd h (by simp [PResult.bind])
          | ok tes s4 =>
              rw [hev] at h
              have hmono := TrackChunk.readEvents_ext_mono (s3.length + 1)
                ((s3 ++ t).length + 1) 0 s3 t tes s4 hev (by simp)
              rw [hmono]
              simp only [PResult.bind] at h ⊢
              injection h with h1 h2
              subst h1; subst h2; rfl

theorem TrackChunk.read_nil : TrackChunk.read [] = .err .IOError [] := by decide

theorem TrackChunk.read_last (s : List Nat) (tc : TrackChunk) (s1 : List Nat)
    (h : TrackChunk.read s = .ok tc s1) :
    ∃ te, tc.events.getLast? = some te ∧ te.event.is_end = true := by
  unfold TrackChunk.read at h
  cases htag : Tag.read s with
  | err e s2 => rw [htag] at h; exact absurd h (by simp [PResult.bind])
  | panic => rw [htag] at h; exact absurd h (by simp [PResult.bind])
  | ok tag s2 =>
      rw [htag] at h
      simp only [PResult.bind] at h
      cases hlen : readU32 s2 with
      | err e s3 => rw [hlen] at h; exact absurd h (by simp [PResult.bind])
      | panic => rw [hlen] at h; exact absurd h (by simp [PResult.bind])
      | ok len s3 =>
          rw [hlen] at h
          simp only [PResult.bind] at h
          cases hev : TrackChunk.readEvents (s3.length + 1) 0 s3 with
          | err e s4 => rw [hev] at h; exact absurd h (by simp [PResult.bind])
          | panic => rw [hev] at h; exact absurd h (by simp [PResult.bind])
          | ok tes s4 =>
              rw [hev] at h
              simp only [PResult.bind] at h
              injection h with h1 h2
              subst h1
              exact TrackChunk.readEvents_last _ _ _ _ _ hev

theorem Format_read_ext : Ext Format.read :=
  ext_bind readU16_ext fun f =>
    ext_ite _ (ext_pure _) (ext_ite _ (ext_pure _) (ext_ite _ (ext_pure _) (ext_err _)))

theorem HeaderChunk_read_ext : Ext HeaderChunk.read :=
  ext_bind Tag_read_ext fun tag => ext_bind readU32_ext fun hl =>
  ext_bind Format_read_ext fun fmt => ext_bind readU16_ext fun tn =>
  ext_bind readI16_ext fun dv => ext_pure _

theorem length_le_flatten (segs : List (List Nat)) (h : ∀ seg ∈ segs, seg ≠ []) :
    segs.length ≤ segs.flatten.length := by
  induction segs with
  | nil => simp
  | cons seg segs ih =>
      simp only [List.flatten_cons, List.length_append, List.length_cons]
      have h1 : seg ≠ [] := h seg (by simp)
      have h2 := ih fun s hs => h s (by simp [hs])
      have h3 : 1 ≤ seg.length := by
        cases seg with
        | nil => exact absurd rfl h1
        | cons a as => simp
      omega

theorem Smf.readTracks_segs :
    ∀ (segs : List (List Nat)) (fuel : Nat),
      (∀ seg ∈ segs, ∃ tc, TrackChunk.read seg = .ok tc []) →
      segs.length < fuel →
      ∃ tcs, Smf.readTracks fuel segs.flatten = .ok tcs [] ∧
        tcs.length = segs.length ∧
        ∀ tc ∈ tcs, ∃ te, tc.events.getLast? = some te ∧ te.event.is_end = true := by
  intro segs
  induction segs with
  | nil =>
      intro fuel _ hf
      obtain ⟨f, rfl⟩ : ∃ g, fuel = g + 1 := ⟨fuel - 1, by omega⟩
      refine ⟨[], ?_, rfl, by simp⟩
      rw [Smf.readTracks]
      simp only [List.flatten_nil]
      rw [TrackChunk.read_nil]
      rfl
  | cons seg segs ih =>
      intro fuel hwf hf
      obtain ⟨f, rfl⟩ : ∃ g, fuel = g + 1 := ⟨fuel - 1, by omega⟩
      obtain ⟨tc, htc⟩ := hwf seg (by simp)
      have hext := TrackChunk_read_ext seg segs.flatten tc [] htc
      simp only [List.nil_append] at hext
      obtain ⟨tcs, h1, h2, h3⟩ := ih f (fun s hs => hwf s (by simp [hs]))
        (by simp only [List.length_cons] at hf; omega)
      refine ⟨tc :: tcs, ?_, by simp [h2], ?_⟩
      · rw [Smf.readTracks]
        simp only [List.flatten_cons]
        rw [hext]
        simp only
        rw [h1]
        rfl
      · intro tc' htc'
        rcases List.mem_cons.mp htc' with rfl | hmem
        · exact TrackChunk.read_last seg tc' [] htc
        · exact h3 tc' hmem

theorem PResult.bind_eq_ok {α β : Type} {p : PResult α} {f : α → List Nat → PResult β}
    {v : β} {s1 : List Nat} (h : p.bind f = .ok v s1) :
    ∃ a s2, p = .ok a s2 ∧ f a s2 = .ok v s1 := by
  cases p with
  | ok a s2 => exact ⟨a, s2, rfl, h⟩
  | err e s2 => exact absurd h (by simp [PResult.bind])
  | panic => exact absurd h (by simp [PResult.bind])

theorem readMidiMessage_classNibble (c : Nat) (s : List Nat) (m : MidiMessage)
    (s1 : List Nat) (h : readMidiMessage c s = .ok m s1) (hc8 : 8 ≤ c) (hc15 : c < 15) :
    m.classNibble = c := by
  unfold readMidiMessage at h
  interval_cases c <;> norm_num at h
  · obtain ⟨_, _, -, h⟩ := PResult.bind_eq_ok h
    obtain ⟨_, _, -, h⟩ := PResult.bind_eq_ok h
    injection h with h1 h2
    subst h1; rfl
  · obtain ⟨_, _, -, h⟩ := PResult.bind_eq_ok h
    obtain ⟨_, _, -, h⟩ := PResult.bind_eq_ok h
    injection h with h1 h2
    subst h1; rfl
  · obtain ⟨_, _, -, h⟩ := PResult.bind_eq_ok h
    obtain ⟨_, _, -, h⟩ := PResult.bind_eq_ok h
    injection h with h1 h2
    subst h1; rfl
  · obtain ⟨_, _, -, h⟩ := PResult.bind_eq_ok h
    obtain ⟨_, _, -, h⟩ := PResult.bind_eq_ok h
    injection h with h1 h2
    subst h1; rfl
  · obtain ⟨_, _, -, h⟩ := PResult.bind_eq_ok h
    injection h with h1 h2
    subst h1; rfl
  · obtain ⟨_, _, -, h⟩ := PResult.bind_eq_ok h
    injection h with h1 h2
    subst h1; rfl
  · obtain ⟨_, _, -, h⟩ := PResult.bind_eq_ok h
    injection h with h1 h2
    subst h1; rfl

theorem U28.readAux_one (inner b : Nat) (s : List Nat) :
    U28.readAux 1 inner (b :: s) = .ok (inner * 128 + b % 256 % 128) s := by
  by_cases hb : 128 ≤ b % 256
  · rw [U28.readAux_cont 0 inner b s hb]; rfl
  · rw [U28.readAux_stop 0 inner b s (by omega)]
    have h : b % 256 % 128 = b % 256 := Nat.mod_eq_of_lt (by omega)
    rw [h]

/-- C3: for every integer v with 0 ≤ v ≤ 2^28 − 1, encoding v as a VLQ
(7-bit groups, continuation bit set on all bytes but the last) and then
decoding those bytes with the VLQ decoder `U28.read` returns exactly v,
consuming exactly the encoding. -/
theorem c3_vlq_roundtrip (v : Nat) (hv : v < 268435456) (rest : List Nat) :
    U28.read (vlqEncode v ++ rest) = .ok ⟨v⟩ rest := by
  unfold vlqEncode
  split_ifs with h1 h2 h3
  · simp only [List.cons_append, List.nil_append]
    unfold U28.read
    rw [U28.readAux_stop 3 0 v rest (by omega)]
    simp only [PResult.bind, PResult.ok.injEq, U28.mk.injEq, and_true]
    omega
  · simp only [List.cons_append, List.nil_append]
    unfold U28.read
    rw [U28.readAux_cont 3 0 _ _ (by omega)]
    rw [U28.readAux_stop 2 _ _ _ (by omega)]
    simp only [PResult.bind, PResult.ok.injEq, U28.mk.injEq, and_true]
    omega
  · simp only [List.cons_append, List.nil_append]
    unfold U28.read
    rw [U28.readAux_cont 3 0 _ _ (by omega)]
    rw [U28.readAux_cont 2 _ _ _ (by omega)]
    rw [U28.readAux_stop 1 _ _ _ (by omega)]
    simp only [PResult.bind, PResult.ok.injEq, U28.mk.injEq, and_true]
    omega
  · simp only [List.cons_append, List.nil_append]
    unfold U28.read
    rw [U28.readAux_cont 3 0 _ _ (by omega)]
    rw [U28.readAux_cont 2 _ _ _ (by omega)]
    rw [U28.readAux_cont 1 _ _ _ (by omega)]
    rw [U28.readAux_stop 0 _ _ _ (by omega)]
    simp only [PResult.bind, PResult.ok.injEq, U28.mk.injEq, and_true]
    omega

/-- C3 witness: the VLQ encoding of 123456 is [0x87, 0xC4, 0x40] and decoding
it returns 123456. -/
theorem c3_witness : U28.read [135, 196, 64] = .ok ⟨123456⟩ [] := by
  have h := c3_vlq_roundtrip 123456 (by omega) []
  simpa [vlqEncode] using h

/-- C8: the VLQ decoder consumes at most 4 bytes; after three continuation
bytes the 4th byte is never checked for a continuation bit (its low 7 bits
close the value whatever its top bit is); [0x82,0x80,0x00,0xFF] decodes to
32768 leaving 0xFF unconsumed and [0x81,0x7F,0xFF] decodes to 255 leaving
0xFF unconsumed. -/
theorem c8_vlq_cap :
    (∀ s : List Nat, ∀ v : U28, ∀ s1 : List Nat,
      U28.read s = .ok v s1 → s.length ≤ s1.length + 4) ∧
    (∀ b0 b1 b2 b3 : Nat, ∀ rest : List Nat,
      128 ≤ b0 → b0 < 256 → 128 ≤ b1 → b1 < 256 → 128 ≤ b2 → b2 < 256 →
      U28.read (b0 :: b1 :: b2 :: b3 :: rest) =
        .ok ⟨(((b0 % 128) * 128 + b1 % 128) * 128 + b2 % 128) * 128 + b3 % 128⟩ rest) ∧
    U28.read [130, 128, 0, 255] = .ok ⟨32768⟩ [255] ∧
    U28.read [129, 127, 255] = .ok ⟨255⟩ [255] := by
  refine ⟨?_, ?_, by decide, by decide⟩
  · intro s v s1 h
    unfold U28.read at h
    obtain ⟨w, s2, hw, hok⟩ := PResult.bind_eq_ok h
    injection hok with hok1 hok2
    subst hok2
    exact U28.readAux_length 4 0 s w s2 hw
  · intro b0 b1 b2 b3 rest h0a h0b h1a h1b h2a h2b
    unfold U28.read
    rw [U28.readAux_cont 3 0 _ _ (by omega)]
    rw [U28.readAux_cont 2 _ _ _ (by omega)]
    rw [U28.readAux_cont 1 _ _ _ (by omega)]
    rw [U28.readAux_one _ b3 rest]
    simp only [PResult.bind, PResult.ok.injEq, U28.mk.injEq, and_true]
    omega

/-- C8 witness: a 4-byte VLQ whose 4th byte is arbitrary decodes to the packed
7-bit groups, and the decoder consumed 4 of the 5 input bytes. -/
theorem c8_witness :
    U28.read [150, 160, 170, 5, 77] = .ok ⟨46667013⟩ [77] ∧
    ([150, 160, 170, 5, 77] : List Nat).length ≤ ([77] : List Nat).length + 4 := by
  have h := c8_vlq_cap.2.1 150 160 170 5 [77]
    (by omega) (by omega) (by omega) (by omega) (by omega) (by omega)
  have h2 : U28.read [150, 160, 170, 5, 77] = .ok ⟨46667013⟩ [77] := by simpa using h
  exact ⟨h2, c8_vlq_cap.1 _ _ _ h2⟩

/-- C5: the pitch-bend payload is packed with the first byte read contributing
bits 0–6 and the second byte contributing bits 7–13; [0x54,0x39] decodes to
0x1CD4 and [0x01,0x01] decodes to 0x81. -/
theorem c5_pitchbend_packing :
    (∀ a b : Nat, ∀ rest : List Nat,
      U14.read (a :: b :: rest) = .ok ⟨a % 256 % 128 + (b % 256 % 128) * 128⟩ rest) ∧
    U14.read [84, 57] = .ok ⟨7380⟩ [] ∧
    U14.read [1, 1] = .ok ⟨129⟩ [] := by
  refine ⟨?_, by decide, by decide⟩
  intro a b rest
  simp only [U14.read, readU8, PResult.bind, PResult.ok.injEq, U14.mk.injEq, and_true]
  omega

/-- C4 counterexample: a pitch-bend data byte with the high bit set does not
make the decode fail with the not-data error — `U14.read` masks it with 0x7F
and succeeds (here with value 0). -/
theorem c4_counterexample : U14.read [128, 0] = .ok ⟨0⟩ [] := by decide

/-- C4 amended: a 7-bit data byte read through `U7.read` with a set high bit
fails with the not-data error carrying that byte, and a byte < 0x80 succeeds
with that value; this applies to every channel-voice data byte read via `U7`,
but NOT to the two bytes of a pitch-bend payload, which `U14.read` masks to
7 bits and never rejects. -/
theorem c4_data_byte_check (b : Nat) (rest : List Nat) :
    (128 ≤ b → b < 256 → U7.read (b :: rest) = .err (.NotData b) rest) ∧
    (b < 128 → U7.read (b :: rest) = .ok ⟨b⟩ rest) ∧
    (∀ a c : Nat, ∀ r2 : List Nat,
      U14.read (a :: c :: r2) = .ok ⟨(c % 256 % 128) * 128 + a % 256 % 128⟩ r2) := by
  refine ⟨?_, ?_, ?_⟩
  · intro hge hlt
    have hm : b % 256 = b := Nat.mod_eq_of_lt (by omega)
    simp [U7.read, readU8, PResult.bind, hm, hge]
  · intro hlt
    have hm : b % 256 = b := Nat.mod_eq_of_lt (by omega)
    simp [U7.read, readU8, PResult.bind, hm, show ¬ 128 ≤ b by omega]
  · intro a c r2
    rfl

/-- C4 witness: 0x7F succeeds with 127, 0x80 fails with NotData 128, and a
pitch-bend payload with both bytes clear decodes by masking. -/
theorem c4_witness :
    U7.read [127] = .ok ⟨127⟩ [] ∧ U7.read [128] = .err (.NotData 128) [] ∧
    U14.read [84, 57] = .ok ⟨7380⟩ [] := by
  refine ⟨(c4_data_byte_check 127 []).2.1 (by omega),
    (c4_data_byte_check 128 []).1 (by omega) (by omega), ?_⟩
  have h := (c4_data_byte_check 0 []).2.2 84 57 []
  simpa using h

/-- C7: for every Smf whose header division field is positive, `timebase`
returns 500000 divided by the division value with integer division. -/
theorem c7_timebase_positive (smf : Smf) (h : 0 < smf.header.division) :
    smf.timebase = some (500000 / smf.header.division.toNat) := by
  simp only [Smf.timebase]
  rw [if_pos h]

/-- C7 witness: division 96 gives 500000/96 = 5208 microseconds per tick. -/
theorem c7_witness :
    Smf.timebase ⟨⟨.Header, 6, .SingleTrack, 1, 96⟩, []⟩ = some 5208 := by
  have h := c7_timebase_positive ⟨⟨.Header, 6, .SingleTrack, 1, 96⟩, []⟩ (by decide)
  simpa using h

/-- C10: `timebase` is partial — with division 0, or negative division whose
masked frames-per-second field (arithmetic shift by 8 then mask 0x7F) or
ticks-per-frame field (mask 0xFF) is zero, the source divides by zero and
panics; in the model the result is `none`. -/
theorem c10_timebase_division_by_zero (smf : Smf) :
    (smf.header.division = 0 → smf.timebase = none) ∧
    (smf.header.division < 0 →
      (Int.fdiv smf.header.division 256 % 128 = 0 ∨ smf.header.division % 256 = 0) →
      smf.timebase = none) := by
  constructor
  · intro h
    simp only [Smf.timebase, h]
    norm_num
  · intro hneg hz
    simp only [Smf.timebase]
    rw [if_neg (by omega)]
    rcases hz with hz | hz
    · rw [hz]
      norm_num
    · rw [hz]
      norm_num

/-- C10 witness: division 0 and division −256 (ticks-per-frame field zero)
both make `timebase` hit the division by zero. -/
theorem c10_witness :
    Smf.timebase ⟨⟨.Header, 6, .SingleTrack, 1, 0⟩, []⟩ = none ∧
    Smf.timebase ⟨⟨.Header, 6, .SingleTrack, 1, -256⟩, []⟩ = none :=
  ⟨(c10_timebase_division_by_zero ⟨⟨.Header, 6, .SingleTrack, 1, 0⟩, []⟩).1 rfl,
   (c10_timebase_division_by_zero ⟨⟨.Header, 6, .SingleTrack, 1, -256⟩, []⟩).2
     (by decide) (Or.inr (by decide))⟩

/-- C9: the peek of the status byte after a decoded delta-time indexes the
buffered slice at position 0 without a length check; on a stream that ends
exactly between a delta-time and its status byte the track decode panics
(models `buf.fill_buf()?[0]` on an empty buffer), and so does the whole-file
decode. -/
theorem c9_peek_out_of_bounds :
    TrackChunk.read [77, 84, 114, 107, 0, 0, 0, 1, 0] = .panic ∧
    Smf.read ([77, 84, 104, 100, 0, 0, 0, 6, 0, 0, 0, 1, 0, 96] ++
      [77, 84, 114, 107, 0, 0, 0, 1, 0]) = .panic := by decide

/-- C1 counterexample: a stream ending in the middle of an event inside a
track chunk (delta 0, NoteOn status 0x90, one data byte, then end of input,
missing the second data byte) does NOT make `Smf.read` return an error: the
mid-event shortfall surfaces as an eof-kind I/O error, which `Smf.read`
swallows as the end-of-tracks signal, returning success with the partial
track discarded. -/
theorem c1_counterexample :
    Smf.read ([77, 84, 104, 100, 0, 0, 0, 6, 0, 0, 0, 1, 0, 96] ++
      [77, 84, 114, 107, 0, 0, 0, 10, 0, 144, 64]) =
      .ok ⟨⟨.Header, 6, .SingleTrack, 1, 96⟩, []⟩ [] := by decide

/-- C1 amended: an input shortfall while decoding a track chunk makes
`TrackChunk.read` fail with an eof-classified I/O error even mid-event, but
`Smf.read` treats every eof-classified track failure as the end-of-input
signal: it swallows the error and succeeds, discarding the partial track;
only a failure whose `is_eof` is false propagates to the caller as a hard
error. -/
theorem c1_eof_swallowed (s : List Nat) (hdr : HeaderChunk) (rest : List Nat)
    (e : ParseError) (s1 : List Nat)
    (hh : HeaderChunk.read s = .ok hdr rest)
    (ht : TrackChunk.read rest = .err e s1) :
    (e.is_eof = true → Smf.read s = .ok ⟨hdr, []⟩ s1) ∧
    (e.is_eof = false → Smf.read s = .err e s1) := by
  have hu : Smf.read s = if e.is_eof then .ok ⟨hdr, []⟩ s1 else .err e s1 := by
    unfold Smf.read
    rw [hh]
    simp only [PResult.bind]
    rw [Smf.readTracks]
    simp only [ht]
    by_cases he : e.is_eof = true
    · simp only [if_pos he]
    · simp only [if_neg he]
  constructor
  · intro he
    rw [hu, if_pos he]
  · intro he
    rw [hu, if_neg (by simp [he])]

/-- C1 witness: concrete instantiation of the amended claim at a stream whose
track chunk ends one data byte short, showing the eof-kind error is swallowed
and the decode succeeds. -/
theorem c1_witness :
    Smf.read [77, 84, 104, 100, 0, 0, 0, 6, 0, 0, 0, 1, 0, 97,
      77, 84, 114, 107, 0, 0, 0, 10, 0, 145, 64] =
      .ok ⟨⟨.Header, 6, .SingleTrack, 1, 97⟩, []⟩ [] :=
  (c1_eof_swallowed _ ⟨.Header, 6, .SingleTrack, 1, 97⟩
    [77, 84, 114, 107, 0, 0, 0, 10, 0, 145, 64] .IOError []
    (by decide) (by decide)).1 rfl

/-- C2: after the delta-time, a peeked byte < 0x80 with no running status yet
(previous status < 0x80) fails with the not-a-command error carrying that
byte; with a running status (previous status ≥ 0x80, i.e. high nibble ≥ 8)
the stored status byte is reused without consuming the peeked byte, and for a
channel-voice running status the decoded event's channel is the status's low
nibble and its message class is the status's high nibble. -/
theorem c2_running_status (prev : Nat) (s rest : List Nat) (b : Nat) (delta : U28)
    (hprev : prev < 256) (hd : U28.read s = .ok delta (b :: rest)) (hb : b < 128) :
    (prev < 128 → TrackChunk.readEvent prev s = .err (.NotCommand b) (b :: rest)) ∧
    (128 ≤ prev →
      TrackChunk.readEvent prev s =
        (readEventBody prev (b :: rest)).bind fun ev s1 => .ok (⟨delta, ev⟩, prev) s1) ∧
    (128 ≤ prev → prev / 16 < 15 →
      ∀ te st s1, TrackChunk.readEvent prev s = .ok (te, st) s1 →
        st = prev ∧ ∃ m, te.event = .Midi (prev % 16) m ∧ m.classNibble = prev / 16) := by
  have hbm : b % 256 = b := Nat.mod_eq_of_lt (by omega)
  have hre : TrackChunk.readEvent prev s = TrackChunk.readEventAfterDelta prev delta (b :: rest) := by
    unfold TrackChunk.readEvent
    rw [hd]
    rfl
  refine ⟨?_, ?_, ?_⟩
  · intro hp
    rw [hre, TrackChunk.readEventAfterDelta]
    rw [if_pos (show b % 256 < 128 by omega), if_pos hp, hbm]
  · intro hp
    rw [hre, TrackChunk.readEventAfterDelta]
    rw [if_pos (show b % 256 < 128 by omega), if_neg (show ¬ prev < 128 by omega)]
  · intro hp h15 te st s1 hok
    rw [hre, TrackChunk.readEventAfterDelta] at hok
    rw [if_pos (show b % 256 < 128 by omega), if_neg (show ¬ prev < 128 by omega)] at hok
    obtain ⟨ev, s2, hbody, hok2⟩ := PResult.bind_eq_ok hok
    injection hok2 with h1 h2
    injection h1 with h1a h1b
    subst h1a; subst h1b
    refine ⟨rfl, ?_⟩
    simp only [readEventBody] at hbody
    rw [if_pos (show 8 ≤ prev / 16 ∧ prev / 16 < 15 from ⟨by omega, h15⟩)] at hbody
    obtain ⟨m, s3, hm, hok3⟩ := PResult.bind_eq_ok hbody
    injection hok3 with h3 h4
    subst h3
    exact ⟨m, rfl, readMidiMessage_classNibble (prev / 16) _ m _ hm (by omega) h15⟩

/-- C2 witness: with no running status, status byte 5 and peeked byte 0x40
fail with NotCommand 0x40; with running status 0x93 (NoteOn, channel 3) the
peeked data byte is not consumed and the event body is decoded from it with
the stored status. -/
theorem c2_witness :
    TrackChunk.readEvent 5 [0, 64, 64] = .err (.NotCommand 64) [64, 64] ∧
    TrackChunk.readEvent 147 [0, 64, 64] =
      ((readEventBody 147 [64, 64]).bind fun ev s1 => .ok (⟨⟨0⟩, ev⟩, 147) s1) :=
  ⟨(c2_running_status 5 [0, 64, 64] [64] 64 ⟨0⟩ (by omega) (by decide) (by omega)).1
      (by omega),
   (c2_running_status 147 [0, 64, 64] [64] 64 ⟨0⟩ (by omega) (by decide) (by omega)).2.1
      (by omega)⟩

/-- C6: for every well-formed SMF stream — a header segment fully consumed by
the header decoder with track count N, followed by exactly N track segments
each fully consumed by the track decoder — the whole-file decode succeeds,
returns N tracks, and the last event of every track is the end-of-track meta
event (it is appended before the track loop stops). -/
theorem c6_track_count_and_end (N : Nat) (hb : List Nat) (hdr : HeaderChunk)
    (segs : List (List Nat))
    (hh : HeaderChunk.read hb = .ok hdr [])
    (hn : hdr.track_num = N)
    (hs : segs.length = N)
    (hwf : ∀ seg ∈ segs, ∃ tc, TrackChunk.read seg = .ok tc []) :
    ∃ tracks, Smf.read (hb ++ segs.flatten) = .ok ⟨hdr, tracks⟩ [] ∧
      tracks.length = N ∧
      ∀ tc ∈ tracks, ∃ te, tc.events.getLast? = some te ∧ te.event.is_end = true := by
  have hne : ∀ seg ∈ segs, seg ≠ [] := by
    intro seg hmem hnil
    obtain ⟨tc, htc⟩ := hwf seg hmem
    rw [hnil, TrackChunk.read_nil] at htc
    exact absurd htc (by simp)
  have hlen := length_le_flatten segs hne
  obtain ⟨tcs, h1, h2, h3⟩ := Smf.readTracks_segs segs (segs.flatten.length + 1) hwf (by omega)
  refine ⟨tcs, ?_, by omega, h3⟩
  unfold Smf.read
  have hext := HeaderChunk_read_ext hb segs.flatten hdr [] hh
  simp only [List.nil_append] at hext
  rw [hext]
  simp only [PResult.bind]
  rw [h1]

/-- C6 witness: a minimal file with track count 1 and one track chunk holding
only the end-of-track meta event decodes to exactly one track ending in the
end-of-track event. -/
theorem c6_witness :
    ∃ tracks, Smf.read ([77, 84, 104, 100, 0, 0, 0, 6, 0, 0, 0, 1, 0, 96] ++
        [[77, 84, 114, 107, 0, 0, 0, 4, 0, 255, 47, 0]].flatten) =
      .ok ⟨⟨.Header, 6, .SingleTrack, 1, 96⟩, tracks⟩ [] ∧
      tracks.length = 1 ∧
      ∀ tc ∈ tracks, ∃ te, tc.events.getLast? = some te ∧ te.event.is_end = true :=
  c6_track_count_and_end 1 _ ⟨.Header, 6, .SingleTrack, 1, 96⟩
    [[77, 84, 114, 107, 0, 0, 0, 4, 0, 255, 47, 0]]
    (by decide) rfl rfl
    (fun seg hseg => by
      rw [List.mem_singleton] at hseg
      subst hseg
      exact ⟨⟨.Track, 4, [⟨⟨0⟩, .Meta (.EndOfTrack ⟨[]⟩)⟩]⟩, by decide⟩)

end SampleSynth
